import Mathlib

/-!
Verification of the EDH dashboard's data normalization and aggregation
pipeline.  The repository has two source-format variants of the same app:

* `src/src/App.jsx` — CSV variant: `winRate`, `parseCSV` (Map-based
  deduplication by `DeckID`, last occurrence wins, pre-aggregated totals
  via `parseInt(...) || 0`), `playerStats`, `filteredDecks`, `topWinner`,
  `mostActive`.
* `src/unnamed/part_000` — XLSX variant: `winRate`, `excelDateToJS`,
  `parseXLSX` (per-deck tally of the `Game Players` sheet into
  `deckStats`, `Decks` sheet joined against it), plus the same engine.

Conventions of the embedding:

* JS `undefined`/`null` cell values are `Option` `none`; a present cell is
  `some`.
* JS numbers that flow through `parseInt` are modelled as `Option ℤ`
  with `none` standing for `NaN`; spreadsheet numeric cells (date serials)
  are modelled as exact rationals `ℚ`, and `Math.round` as Mathlib's
  `round` (both round half toward positive infinity).
* JS string helpers (`trim`, `split(',')`, `parseInt`) are embedded as
  structural functions over `List Char` so that they evaluate by `decide`.
* `Array.prototype.sort` is stable (ES2019) and is invoked with comparator
  `(a, b) => key(b) - key(a)`; a stable sort under that comparator places
  `a` before `b` exactly when `key b ≤ key a`, so it is embedded as a
  stable insertion sort with that relation.
* JS `Map` (insertion-ordered, `set` on an existing key updates the value
  in place) is embedded as an association list with `mapSet`.
-/

/-! ## JS value helpers -/

/-- JS `String.prototype.trim`: strip leading and trailing whitespace. -/
def jsTrim (s : String) : String :=
  ⟨((s.data.dropWhile Char.isWhitespace).reverse.dropWhile Char.isWhitespace).reverse⟩

/-- Split a character list at every `','`, as JS `split(',')` does. -/
def splitCommaAux : List Char → List (List Char)
  | [] => [[]]
  | c :: cs =>
    match splitCommaAux cs with
    | [] => [[c]]
    | g :: gs => if c = ',' then [] :: g :: gs else (c :: g) :: gs

/-- JS `String.prototype.split(',')`. -/
def jsSplitComma (s : String) : List String :=
  (splitCommaAux s.data).map (fun cs => ⟨cs⟩)

/-- JS nullish coalescing `a ?? b` on option-valued expressions. -/
def jsNullish {α : Type} (a b : Option α) : Option α :=
  match a with
  | none => b
  | some v => some v

/-- JS object property access `o[k]` coerces the key to a string;
`undefined` becomes the literal key string `"undefined"`. -/
def jsPropKey : Option String → String
  | none => "undefined"
  | some s => s

/-- Digit prefix of a character list. -/
def leadingDigits (cs : List Char) : List Char := cs.takeWhile Char.isDigit

/-- Numeric value of a digit list. -/
def digitsToNat (ds : List Char) : ℕ := ds.foldl (fun a c => a * 10 + (c.toNat - 48)) 0

/-- JS `parseInt` on the character level: optional sign followed by a digit
prefix; `none` models `NaN` (no digits).  The hexadecimal `0x` form of
`parseInt` never arises for this dashboard's numeric cells and is omitted. -/
def jsParseIntChars : List Char → Option ℤ
  | '-' :: rest =>
    if leadingDigits rest = [] then none else some (-(digitsToNat (leadingDigits rest) : ℤ))
  | '+' :: rest =>
    if leadingDigits rest = [] then none else some (digitsToNat (leadingDigits rest))
  | cs =>
    if leadingDigits cs = [] then none else some (digitsToNat (leadingDigits cs))

/-- JS `parseInt(s)`: leading whitespace is skipped; trailing characters
after the digit prefix are ignored. -/
def jsParseInt (s : String) : Option ℤ :=
  jsParseIntChars (s.data.dropWhile Char.isWhitespace)

/-- JS `parseInt` applied to a possibly-absent cell: `parseInt(undefined)`
coerces `undefined` to the string `"undefined"` and yields `NaN`. -/
def jsParseIntCell : Option String → Option ℤ
  | none => none
  | some s => jsParseInt s

/-- JS number truthiness: `NaN` (here `none`) and `0` are falsy. -/
def jsNumTruthy : Option ℤ → Bool
  | none => false
  | some n => n != 0

/-- JS `x || 0` on a number: `NaN` and `±0` give `0`. -/
def jsOrZero (a : Option ℤ) : Option ℤ :=
  if jsNumTruthy a then a else some 0

/-! ## Helpers from the source (`winRate`, `excelDateToJS`) -/

/-- Source: `winRate = (wins, games) => games === 0 ? 0 : Math.round((wins / games) * 100)`
(identical in both variants). -/
def winRate (wins games : ℕ) : ℤ :=
  if games = 0 then 0 else round (((wins : ℚ) / (games : ℚ)) * 100)

/-- Source: `excelDateToJS = (serial) => serial ? new Date(Math.round((serial - 25569) * 86400 * 1000)) : null`.
The produced `Date` is represented by its millisecond timestamp. -/
def excelDateToJS (serial : Option ℚ) : Option ℤ :=
  match serial with
  | none => none
  | some q => if q = 0 then none else some (round ((q - 25569) * 86400 * 1000))

/-! ## XLSX variant: `Game Players` tally and `Decks` join -/

/-- One row of the `Game Players` sheet. -/
structure GPRow where
  DeckID : Option String
  WinFlag : Option ℤ
deriving DecidableEq

/-- The `games`/`wins`/`losses` accumulator object. -/
structure GPStats where
  games : ℕ
  wins : ℕ
  losses : ℕ
deriving DecidableEq

/-- One `Game Players` row folded into a deck's accumulator:
`games++`, `wins += WinFlag === 1 ? 1 : 0`, `losses += WinFlag === 0 ? 1 : 0`. -/
def tallyRow (s : GPStats) (flag : Option ℤ) : GPStats :=
  { games := s.games + 1
    wins := s.wins + (if flag = some 1 then 1 else 0)
    losses := s.losses + (if flag = some 0 then 1 else 0) }

/-- The `forEach` loop of `parseXLSX` building the `deckStats` object:
rows with a falsy `DeckID` (absent or empty) are skipped. -/
def deckStatsAux : (String → Option GPStats) → List GPRow → (String → Option GPStats)
  | m, [] => m
  | m, ⟨none, _⟩ :: rest => deckStatsAux m rest
  | m, ⟨some i, wf⟩ :: rest =>
    if i = "" then deckStatsAux m rest
    else
      deckStatsAux
        (fun k => if k = i then some (tallyRow ((m i).getD ⟨0, 0, 0⟩) wf) else m k)
        rest

/-- The object `deckStats` keyed by `DeckID`; a key that was never written is absent. -/
def deckStats (rows : List GPRow) : String → Option GPStats :=
  deckStatsAux (fun _ => none) rows

/-- One row of the `Decks` sheet (the columns the code reads). -/
structure XRow where
  DeckID : Option String
  Commander : Option String
  PlayerName : Option String
  Theme : Option String
  EstPower : Option ℤ
  ArchidektID : Option String
deriving DecidableEq

/-- Source: `row.Theme ? row.Theme.split(',').map(t => t.trim()).filter(Boolean) : []`. -/
def jsThemes : Option String → List String
  | none => []
  | some t => if t = "" then [] else ((jsSplitComma t).map jsTrim).filter (fun s => s != "")

/-- The normalized deck entity of the XLSX variant. -/
structure Deck where
  id : String
  commander : Option String
  player : Option String
  themes : List String
  power : Option ℤ
  archidektId : Option String
  games : ℕ
  wins : ℕ
  losses : ℕ
deriving DecidableEq

/-- One `Decks` row joined with the computed stats:
`{ id: String(row.DeckID ?? '').trim(), commander: row.Commander?.trim() ?? '—', ...,
   ...(deckStats[row.DeckID] ?? { games: 0, wins: 0, losses: 0 }) }`. -/
def mkXlsxDeck (stats : String → Option GPStats) (row : XRow) : Deck :=
  let s := (stats (jsPropKey row.DeckID)).getD ⟨0, 0, 0⟩
  { id := jsTrim (row.DeckID.getD "")
    commander := jsNullish (row.Commander.map jsTrim) (some "—")
    player := jsNullish (row.PlayerName.map jsTrim) (some "—")
    themes := jsThemes row.Theme
    power := row.EstPower
    archidektId := row.ArchidektID.map jsTrim
    games := s.games
    wins := s.wins
    losses := s.losses }

/-- The `decks` collection produced by `parseXLSX`. -/
def parseXLSXDecks (gp : List GPRow) (deckRows : List XRow) : List Deck :=
  deckRows.map (mkXlsxDeck (deckStats gp))

/-! ## CSV variant: `parseCSV` -/

/-- One parsed CSV row (the columns the code reads); a missing cell or
column is `none`. -/
structure CSVRow where
  DeckID : Option String
  Commander : Option String
  PlayerName : Option String
  TotalGames : Option String
  Wins : Option String
  Losses : Option String
deriving DecidableEq

/-- JS `Map.prototype.set`: an existing key keeps its original position and
gets the new value; a new key is appended. -/
def mapSet (m : List (Option String × CSVRow)) (k : Option String) (v : CSVRow) :
    List (Option String × CSVRow) :=
  if m.any (fun p => p.1 == k) then m.map (fun p => if p.1 == k then (k, v) else p)
  else m ++ [(k, v)]

/-- The `data.forEach(row => seen.set(row.DeckID, row))` loop. -/
def insertRows (m : List (Option String × CSVRow)) : List CSVRow → List (Option String × CSVRow)
  | [] => m
  | r :: rest => insertRows (mapSet m r.DeckID r) rest

/-- Values of the map, `[...seen.values()]`: deduplicate by `DeckID`, keep last occurrence. -/
def dedupByDeckID (rows : List CSVRow) : List CSVRow :=
  (insertRows [] rows).map Prod.snd

/-- The normalized deck entity of the CSV variant.  Numeric fields are JS
numbers (`Option ℤ`, `none` = `NaN`); string fields pass through
`?.trim()` and stay absent when the cell is missing. -/
structure CDeck where
  id : Option String
  commander : Option String
  player : Option String
  games : Option ℤ
  wins : Option ℤ
  losses : Option ℤ
deriving DecidableEq

/-- The row-to-deck mapping of `parseCSV`. -/
def mkCSVDeck (row : CSVRow) : CDeck :=
  { id := row.DeckID.map jsTrim
    commander := row.Commander.map jsTrim
    player := row.PlayerName.map jsTrim
    games := jsOrZero (jsParseIntCell row.TotalGames)
    wins := jsOrZero (jsParseIntCell row.Wins)
    losses := jsOrZero (jsParseIntCell row.Losses) }

/-- The function `parseCSV` from the parsed row list onward (the `Papa.parse` text
decoding is the Reader and is out of scope of the claims). -/
def parseCSV (rows : List CSVRow) : List CDeck :=
  (dedupByDeckID rows).map mkCSVDeck

/-! ## Aggregation engine: filtering, sorting, per-player stats -/

/-- Stable insertion of `a` into `l`, descending by key `k`: `a` goes
before the first element whose key is not larger. -/
def ordInsertK {α : Type} (k : α → ℤ) (a : α) : List α → List α
  | [] => [a]
  | b :: l => if k b ≤ k a then a :: b :: l else b :: ordInsertK k a l

/-- Stable sort descending by key `k` — the embedding of the stable
`Array.prototype.sort` under comparator `(a, b) => k b - k a`. -/
def insSortK {α : Type} (k : α → ℤ) : List α → List α
  | [] => []
  | a :: l => ordInsertK k a (insSortK k l)

/-- The comparator dispatch of `filteredDecks` as a sort key: `'games'`,
`'wins'`, `'winrate'`, and the catch-all `return 0`. -/
def sortKeyFn (deckSort : String) (d : Deck) : ℤ :=
  if deckSort = "games" then d.games
  else if deckSort = "wins" then d.wins
  else if deckSort = "winrate" then winRate d.wins d.games
  else 0

/-- The `filteredDecks` memo: player filter (sentinel `'All'`), unplayed
filter, then `[...d].sort(...)`. -/
def filteredDecks (decks : List Deck) (activePlayer : String) (showUnplayed : Bool)
    (deckSort : String) : List Deck :=
  let d1 := if activePlayer = "All" then decks
            else decks.filter (fun d => d.player == some activePlayer)
  let d2 := if showUnplayed then d1 else d1.filter (fun d => decide (0 < d.games))
  insSortK (sortKeyFn deckSort) d2

/-- One per-player aggregate row. -/
structure PlayerStat where
  player : String
  decks : ℕ
  games : ℕ
  wins : ℕ
deriving DecidableEq

/-- The `playerStats` memo: one entry per known player, in player-list
order, aggregating over that player's decks. -/
def playerStats (decks : List Deck) (players : List String) : List PlayerStat :=
  players.map (fun p =>
    let pd := decks.filter (fun d => d.player == some p)
    { player := p
      decks := pd.length
      games := pd.foldl (fun s d => s + d.games) 0
      wins := pd.foldl (fun s d => s + d.wins) 0 })

/-- Source: `topWinner = [...playerStats].sort((a, b) => b.wins - a.wins)[0]`. -/
def topWinner (stats : List PlayerStat) : Option PlayerStat :=
  (insSortK (fun s => (s.wins : ℤ)) stats).head?

/-- Source: `mostActive = [...playerStats].sort((a, b) => b.games - a.games)[0]`. -/
def mostActive (stats : List PlayerStat) : Option PlayerStat :=
  (insSortK (fun s => (s.games : ℤ)) stats).head?

/-! ## Reference-and-heap model of the `filteredDecks` computation

To state the frame property (the sort operates on the spread copy, never
on the state-held `decks` array) the arrays are placed in an explicit
store: a reference is an index, `[...d]` allocates a fresh reference, and
`.sort` writes the sorted contents back through the reference it was
invoked on. -/

/-- Read an array reference (out-of-range reads give the empty array). -/
def readRef (h : List (List Deck)) (r : ℕ) : List Deck := h.getD r []

/-- Overwrite an array reference in place. -/
def writeRef (h : List (List Deck)) (r : ℕ) (v : List Deck) : List (List Deck) := h.set r v

/-- Allocate a fresh array holding `v`. -/
def allocRef (h : List (List Deck)) (v : List Deck) : List (List Deck) × ℕ :=
  (h ++ [v], h.length)

/-- The `filteredDecks` computation against the store: read `decks` from
`r`, filter (pure), spread into a fresh array, sort that array in place,
return the store and the result reference. -/
def filteredDecksProc (h : List (List Deck)) (r : ℕ) (activePlayer : String)
    (showUnplayed : Bool) (deckSort : String) : List (List Deck) × ℕ :=
  let decks := readRef h r
  let d1 := if activePlayer = "All" then decks
            else decks.filter (fun d => d.player == some activePlayer)
  let d2 := if showUnplayed then d1 else d1.filter (fun d => decide (0 < d.games))
  let alloc := allocRef h d2
  let h2 := writeRef alloc.1 alloc.2 (insSortK (sortKeyFn deckSort) (readRef alloc.1 alloc.2))
  (h2, alloc.2)

/-! ## Lemmas: the stable descending sort -/

section StableSort

variable {α : Type} (k : α → ℤ)

theorem ordInsertK_perm (a : α) (l : List α) : List.Perm (ordInsertK k a l) (a :: l) := by
  induction l with
  | nil => simp [ordInsertK]
  | cons b t ih =>
    unfold ordInsertK
    split
    · exact List.Perm.refl _
    · exact (ih.cons b).trans (List.Perm.swap a b t)

theorem insSortK_perm (l : List α) : List.Perm (insSortK k l) l := by
  induction l with
  | nil => simp [insSortK]
  | cons a t ih => exact (ordInsertK_perm k a (insSortK k t)).trans (ih.cons a)

theorem pairwise_ordInsertK (a : α) (l : List α)
    (h : l.Pairwise (fun x y => k y ≤ k x)) :
    (ordInsertK k a l).Pairwise (fun x y => k y ≤ k x) := by
  induction l with
  | nil => simp [ordInsertK]
  | cons b t ih =>
    rw [List.pairwise_cons] at h
    unfold ordInsertK
    split
    · rename_i hba
      refine List.pairwise_cons.2 ⟨?_, List.pairwise_cons.2 h⟩
      intro x hx
      rcases List.mem_cons.1 hx with rfl | hx
      · exact hba
      · exact le_trans (h.1 x hx) hba
    · rename_i hba
      push_neg at hba
      refine List.pairwise_cons.2 ⟨?_, ih h.2⟩
      intro x hx
      have hx' := (ordInsertK_perm k a t).mem_iff.1 hx
      rcases List.mem_cons.1 hx' with rfl | hx'
      · exact le_of_lt hba
      · exact h.1 x hx'

theorem pairwise_insSortK (l : List α) :
    (insSortK k l).Pairwise (fun x y => k y ≤ k x) := by
  induction l with
  | nil => simp [insSortK]
  | cons a t ih => exact pairwise_ordInsertK k a _ ih

theorem filter_ordInsertK (a : α) (l : List α) (g : ℤ) :
    (ordInsertK k a l).filter (fun x => decide (k x = g)) =
      if k a = g then a :: l.filter (fun x => decide (k x = g))
      else l.filter (fun x => decide (k x = g)) := by
  induction l with
  | nil => by_cases hag : k a = g <;> simp [ordInsertK, hag]
  | cons b t ih =>
    unfold ordInsertK
    split
    · rename_i hba
      by_cases hag : k a = g <;> simp [List.filter_cons, hag]
    · rename_i hba
      push_neg at hba
      by_cases hag : k a = g
      · have hbg : ¬ (k b = g) := by
          intro hbg
          rw [hbg, ← hag] at hba
          exact absurd (le_refl (k a)) (not_le_of_lt hba)
      
        simp [List.filter_cons, hbg, ih, hag]
      · by_cases hbg : k b = g <;> simp [List.filter_cons, hbg, ih, hag]

theorem filter_insSortK (l : List α) (g : ℤ) :
    (insSortK k l).filter (fun x => decide (k x = g)) =
      l.filter (fun x => decide (k x = g)) := by
  induction l with
  | nil => simp [insSortK]
  | cons a t ih =>
    show (ordInsertK k a (insSortK k t)).filter _ = _
    rw [filter_ordInsertK, ih]
    by_cases hag : k a = g <;> simp [List.filter_cons, hag]

theorem find?_mono_of_find? {p q : α → Bool} (l : List α) (b : α)
    (hq : l.find? q = some b) (hpb : p b = true) (himp : ∀ x, p x = true → q x = true) :
    l.find? p = some b := by
  induction l with
  | nil => simp at hq
  | cons c t ih =>
    by_cases hqc : q c = true
    · rw [List.find?_cons_of_pos t hqc] at hq
      obtain rfl : c = b := by injection hq
      rw [List.find?_cons_of_pos t hpb]
    · rw [List.find?_cons_of_neg t (by simp [hqc])] at hq
      have hpc : ¬ p c = true := fun hpc => hqc (himp c hpc)
      rw [List.find?_cons_of_neg t (by simp [hpc])]
      exact ih hq

theorem head_insSortK (l : List α) :
    (insSortK k l).head? = l.find? (fun x => l.all (fun y => decide (k y ≤ k x))) := by
  induction l with
  | nil => simp [insSortK]
  | cons a t ih =>
    show (ordInsertK k a (insSortK k t)).head? = _
    rcases hs : insSortK k t with _ | ⟨b, s⟩
    · have ht : t = [] := by
        have hp := insSortK_perm k t
        rw [hs] at hp
        exact (hp.symm).eq_nil
      subst ht
      simp [ordInsertK, List.find?]
    · rw [hs] at ih
      have hfind : t.find? (fun x => t.all (fun y => decide (k y ≤ k x))) = some b := ih.symm
      have hb_mem : b ∈ t := List.mem_of_find?_eq_some hfind
      have hb_max : ∀ y ∈ t, k y ≤ k b := by
        have hall := List.find?_some hfind
        intro y hy
        exact of_decide_eq_true (List.all_eq_true.1 hall y hy)
      by_cases hba : k b ≤ k a
      · have hpa : ((a :: t).all (fun y => decide (k y ≤ k a))) = true := by
          refine List.all_eq_true.2 ?_
          intro y hy
          rcases List.mem_cons.1 hy with rfl | hy
          · simp
          · exact decide_eq_true (le_trans (hb_max y hy) hba)
        rw [List.find?_cons_of_pos t hpa]
        simp [ordInsertK, hba]
      · have hab : k a < k b := lt_of_not_le hba
        have hpa : ¬ (((a :: t).all (fun y => decide (k y ≤ k a))) = true) := by
          simp only [List.all_eq_true]
          intro hall
          exact hba (of_decide_eq_true (hall b (List.mem_cons_of_mem a hb_mem)))
        rw [List.find?_cons_of_neg t hpa]
        have hgoal : t.find? (fun x => (a :: t).all (fun y => decide (k y ≤ k x))) = some b := by
          refine find?_mono_of_find? t b hfind ?_ ?_
          · refine List.all_eq_true.2 ?_
            intro y hy
            rcases List.mem_cons.1 hy with rfl | hy
            · exact decide_eq_true (le_of_lt hab)
            · exact decide_eq_true (hb_max y hy)
          · intro x hx
            refine List.all_eq_true.2 ?_
            intro y hy
            exact List.all_eq_true.1 hx y (List.mem_cons_of_mem a hy)
        rw [hgoal]
        simp [ordInsertK, hba]

end StableSort

/-! ## Lemmas: predicate conversions -/

theorem find?_congr_pred {α : Type} {p q : α → Bool} (l : List α) (h : ∀ x, p x = q x) :
    l.find? p = l.find? q := by
  have hpq : p = q := funext h
  rw [hpq]

/-! ## Claim C6: filtering and sorting by games -/

theorem filteredDecks_all_unplayed_games_red (decks : List Deck) :
    filteredDecks decks "All" false "games" =
      insSortK (fun d => (d.games : ℤ)) (decks.filter (fun d => decide (0 < d.games))) := by
  have hk : sortKeyFn "games" = fun d => (d.games : ℤ) := by
    funext d
    simp [sortKeyFn]
  simp [filteredDecks, hk]

/-- Claim C6. `filteredDecks(decks, "All", includeUnplayed := false, "games")`
returns exactly the decks with `games > 0` (a permutation of that filter),
ordered descending by `games` (pairwise), and decks with equal `games`
keep their input relative order (the sublist at each games-value is
unchanged — the stability guarantee of `Array.prototype.sort`). -/
theorem filteredDecks_all_unplayed_games_spec (decks : List Deck) :
    (filteredDecks decks "All" false "games").Pairwise (fun a b => b.games ≤ a.games) ∧
    List.Perm (filteredDecks decks "All" false "games")
      (decks.filter (fun d => decide (0 < d.games))) ∧
    ∀ g : ℕ, (filteredDecks decks "All" false "games").filter (fun d => decide (d.games = g)) =
      (decks.filter (fun d => decide (0 < d.games))).filter (fun d => decide (d.games = g)) := by
  rw [filteredDecks_all_unplayed_games_red]
  set l := decks.filter (fun d => decide (0 < d.games)) with hl
  refine ⟨?_, insSortK_perm _ l, ?_⟩
  · exact (pairwise_insSortK (fun d => (d.games : ℤ)) l).imp (fun h => Int.ofNat_le.1 h)
  · intro g
    have heq : ∀ x : Deck, (decide ((x.games : ℤ) = (g : ℤ))) = decide (x.games = g) := by
      intro x
      exact decide_eq_decide.2 Int.ofNat_inj
    calc (insSortK (fun d => (d.games : ℤ)) l).filter (fun d => decide (d.games = g))
        = (insSortK (fun d => (d.games : ℤ)) l).filter
            (fun d => decide ((d.games : ℤ) = (g : ℤ))) :=
          (List.filter_congr (fun x _ => heq x)).symm
      _ = l.filter (fun d => decide ((d.games : ℤ) = (g : ℤ))) :=
          filter_insSortK (fun d => (d.games : ℤ)) l (g : ℤ)
      _ = l.filter (fun d => decide (d.games = g)) := List.filter_congr (fun x _ => heq x)

/-! ## Claim C7: superlative selectors -/

/-- Claim C7. `topWinner` (top-by-wins) and `mostActive` (top-by-games) each
return the first entry of the per-player aggregate list attaining the
maximum of the respective field (`List.find?` returns the first match, so
a tie goes to the player appearing first in player-list order), and any
returned entry is a member whose field value dominates every entry. -/
theorem topWinner_mostActive_spec (stats : List PlayerStat) :
    topWinner stats = stats.find? (fun s => stats.all (fun t => decide (t.wins ≤ s.wins))) ∧
    mostActive stats = stats.find? (fun s => stats.all (fun t => decide (t.games ≤ s.games))) ∧
    (∀ s, topWinner stats = some s → s ∈ stats ∧ ∀ t ∈ stats, t.wins ≤ s.wins) ∧
    (∀ s, mostActive stats = some s → s ∈ stats ∧ ∀ t ∈ stats, t.games ≤ s.games) := by
  have hwins : topWinner stats =
      stats.find? (fun s => stats.all (fun t => decide (t.wins ≤ s.wins))) := by
    rw [topWinner, head_insSortK]
    refine find?_congr_pred stats ?_
    intro x
    congr 1
    funext y
    exact decide_eq_decide.2 Int.ofNat_le
  have hgames : mostActive stats =
      stats.find? (fun s => stats.all (fun t => decide (t.games ≤ s.games))) := by
    rw [mostActive, head_insSortK]
    refine find?_congr_pred stats ?_
    intro x
    congr 1
    funext y
    exact decide_eq_decide.2 Int.ofNat_le
  refine ⟨hwins, hgames, ?_, ?_⟩
  · intro s hs
    rw [hwins] at hs
    refine ⟨List.mem_of_find?_eq_some hs, ?_⟩
    intro t ht
    have hps : stats.all (fun u => decide (u.wins ≤ s.wins)) = true :=
      @List.find?_some _ (fun x => stats.all (fun u => decide (u.wins ≤ x.wins))) s stats hs
    exact of_decide_eq_true (List.all_eq_true.1 hps t ht)
  · intro s hs
    rw [hgames] at hs
    refine ⟨List.mem_of_find?_eq_some hs, ?_⟩
    intro t ht
    have hps : stats.all (fun u => decide (u.games ≤ s.games)) = true :=
      @List.find?_some _ (fun x => stats.all (fun u => decide (u.games ≤ x.games))) s stats hs
    exact of_decide_eq_true (List.all_eq_true.1 hps t ht)

/-- Witness for C7 at a concrete tie: two players both on 2 wins — the
first one in player order is selected. -/
theorem topWinner_mostActive_spec_witness :
    topWinner [⟨"p", 1, 3, 2⟩, ⟨"q", 1, 3, 2⟩] = some ⟨"p", 1, 3, 2⟩ ∧
    (⟨"p", 1, 3, 2⟩ : PlayerStat) ∈ [(⟨"p", 1, 3, 2⟩ : PlayerStat), ⟨"q", 1, 3, 2⟩] ∧
    ∀ t ∈ [(⟨"p", 1, 3, 2⟩ : PlayerStat), ⟨"q", 1, 3, 2⟩], t.wins ≤ 2 := by
  have h1 : topWinner [⟨"p", 1, 3, 2⟩, ⟨"q", 1, 3, 2⟩] = some ⟨"p", 1, 3, 2⟩ :=
    ((topWinner_mostActive_spec [⟨"p", 1, 3, 2⟩, ⟨"q", 1, 3, 2⟩]).1).trans (by decide)
  have h2 := (topWinner_mostActive_spec [⟨"p", 1, 3, 2⟩, ⟨"q", 1, 3, 2⟩]).2.2.1 _ h1
  exact ⟨h1, h2.1, h2.2⟩

/-! ## Claim C1: winRate bounds and rounding -/

/-- Claim C1. For `0 ≤ wins ≤ games`, `winRate` returns an integer in
`[0, 100]`; `winRate(0, 0) = 0` (the `games === 0` guard); and for
`games > 0` it returns `100 * wins / games` rounded to the nearest
integer (`Math.round`, half toward positive infinity, embedded as
Mathlib's `round`). -/
theorem winRate_spec (wins games : ℕ) (h : wins ≤ games) :
    (0 ≤ winRate wins games ∧ winRate wins games ≤ 100) ∧
    winRate 0 0 = 0 ∧
    (0 < games → winRate wins games = round ((100 * wins / games : ℚ))) := by
  refine ⟨?_, by simp [winRate], ?_⟩
  · unfold winRate
    by_cases hg : games = 0
    · simp [hg]
    · rw [if_neg hg]
      have hg' : (0:ℚ) < games := by exact_mod_cast Nat.pos_of_ne_zero hg
      have hq0 : (0:ℚ) ≤ (wins:ℚ) / games * 100 := by positivity
      have hq1 : (wins:ℚ) / games * 100 ≤ 100 := by
        have hwg : (wins:ℚ) ≤ games := by exact_mod_cast h
        have hdiv : (wins:ℚ) / games ≤ 1 := (div_le_one hg').2 hwg
        nlinarith
      constructor
      · rw [round_eq]
        have h0 : (0:ℤ) = ⌊(0:ℚ) + 1 / 2⌋ := by norm_num
        rw [h0]
        exact Int.floor_le_floor (by linarith)
      · rw [round_eq]
        have h100 : (100:ℤ) = ⌊(100:ℚ) + 1 / 2⌋ := by norm_num
        rw [h100]
        exact Int.floor_le_floor (by linarith)
  · intro hgpos
    unfold winRate
    rw [if_neg (Nat.pos_iff_ne_zero.1 hgpos)]
    congr 1
    ring

/-- Witness for C1 at `wins = 1, games = 3`: both the bounds and the
rounding form, plus the concrete value 33. -/
theorem winRate_spec_witness :
    (1:ℕ) ≤ 3 ∧ (0 ≤ winRate 1 3 ∧ winRate 1 3 ≤ 100) ∧
    winRate 1 3 = round ((100 * (1:ℕ) / (3:ℕ) : ℚ)) ∧ winRate 1 3 = 33 := by
  refine ⟨by norm_num, (winRate_spec 1 3 (by norm_num)).1,
    (winRate_spec 1 3 (by norm_num)).2.2 (by norm_num), ?_⟩
  unfold winRate
  norm_num [round_eq, Int.floor_eq_iff]

/-! ## Claim C9: Excel serial date conversion -/

/-- Claim C9. `excelDateToJS` returns `null` for an absent or zero serial
(number truthiness guard), and otherwise the timestamp
`(serial - 25569) * 86400 * 1000` milliseconds from the Unix epoch,
rounded to the nearest millisecond; for an integral serial no rounding
occurs and the value is exactly `(n - 25569) * 86400000`. -/
theorem excelDateToJS_spec :
    excelDateToJS none = none ∧
    excelDateToJS (some 0) = none ∧
    (∀ q : ℚ, q ≠ 0 → excelDateToJS (some q) = some (round (((q - 25569) * 86400) * 1000))) ∧
    (∀ n : ℤ, n ≠ 0 → excelDateToJS (some (n : ℚ)) = some ((n - 25569) * 86400000)) := by
  refine ⟨rfl, by simp [excelDateToJS], ?_, ?_⟩
  · intro q hq
    simp [excelDateToJS, hq]
  · intro n hn
    have hq : (n : ℚ) ≠ 0 := by exact_mod_cast hn
    simp only [excelDateToJS, if_neg hq]
    congr 1
    have hcast : ((n : ℚ) - 25569) * 86400 * 1000 = (((n - 25569) * 86400000 : ℤ) : ℚ) := by
      push_cast
      ring
    rw [hcast, round_intCast]

/-- Witness for C9 at serial 45000 (an integral serial): the general
rounding form and the exact integer value. -/
theorem excelDateToJS_spec_witness :
    (45000:ℚ) ≠ 0 ∧
    excelDateToJS (some (45000:ℚ)) = some (round ((((45000:ℚ) - 25569) * 86400) * 1000)) ∧
    excelDateToJS (some ((45000:ℤ) : ℚ)) = some 1678838400000 := by
  refine ⟨by norm_num, excelDateToJS_spec.2.2.1 45000 (by norm_num), ?_⟩
  exact (excelDateToJS_spec.2.2.2 45000 (by norm_num)).trans (by norm_num)

/-! ## Claim C10: the sort operates on a copy -/

theorem getD_append_len {α : Type} (l : List α) (a d : α) :
    (l ++ [a]).getD l.length d = a := by
  induction l with
  | nil => rfl
  | cons x t ih => simp [ih]

theorem getD_append_lt {α : Type} (l : List α) (a d : α) (r : ℕ) (hr : r < l.length) :
    (l ++ [a]).getD r d = l.getD r d := by
  induction l generalizing r with
  | nil => simp at hr
  | cons x t ih =>
    cases r with
    | zero => rfl
    | succ r' => simpa using ih r' (by simpa using hr)

theorem set_append_len {α : Type} (l : List α) (a v : α) :
    (l ++ [a]).set l.length v = l ++ [v] := by
  induction l with
  | nil => rfl
  | cons x t ih => simp [ih]

/-- The store-level computation equals: append one fresh array holding the
pure `filteredDecks` result; nothing else in the store is written. -/
theorem filteredDecksProc_eq (h : List (List Deck)) (r : ℕ) (activePlayer : String)
    (showUnplayed : Bool) (deckSort : String) :
    filteredDecksProc h r activePlayer showUnplayed deckSort =
      (h ++ [filteredDecks (readRef h r) activePlayer showUnplayed deckSort], h.length) := by
  simp only [filteredDecksProc, filteredDecks, allocRef, writeRef, readRef]
  rw [getD_append_len, set_append_len]

/-- Claim C10. Frame property of `filteredDecks`: the spread `[...d]` copies
the filtered array and `.sort` mutates only that copy, so for any store,
any valid `decks` reference and any choice of player filter, unplayed
toggle and sort key, the input deck list read through its reference is
unchanged by the computation, and the result reference holds exactly the
pure `filteredDecks` value. -/
theorem filteredDecksProc_frame (h : List (List Deck)) (r : ℕ) (activePlayer : String)
    (showUnplayed : Bool) (deckSort : String) (hr : r < h.length) :
    readRef (filteredDecksProc h r activePlayer showUnplayed deckSort).1 r = readRef h r ∧
    readRef (filteredDecksProc h r activePlayer showUnplayed deckSort).1
        (filteredDecksProc h r activePlayer showUnplayed deckSort).2 =
      filteredDecks (readRef h r) activePlayer showUnplayed deckSort := by
  rw [filteredDecksProc_eq]
  constructor
  · exact getD_append_lt h _ [] r hr
  · exact getD_append_len h _ []

/-- Witness for C10 at a one-array store. -/
theorem filteredDecksProc_frame_witness :
    (0:ℕ) < ([[⟨"A", none, none, [], none, none, 1, 1, 0⟩]] : List (List Deck)).length ∧
    readRef (filteredDecksProc [[⟨"A", none, none, [], none, none, 1, 1, 0⟩]] 0
        "All" false "games").1 0 =
      readRef [[⟨"A", none, none, [], none, none, 1, 1, 0⟩]] 0 := by
  exact ⟨by decide,
    (filteredDecksProc_frame [[⟨"A", none, none, [], none, none, 1, 1, 0⟩]] 0
      "All" false "games" (by decide)).1⟩

/-! ## Lemmas: the `Map`-based deduplication of `parseCSV` -/

/-- Invariant of the `seen` map: keys are distinct and every stored row
carries its own key. -/
def KeyedOK (m : List (Option String × CSVRow)) : Prop :=
  (m.map Prod.fst).Nodup ∧ ∀ p ∈ m, p.2.DeckID = p.1

theorem keyedOK_nil : KeyedOK [] := ⟨List.nodup_nil, by simp⟩

theorem map_replace_of_not_mem (m : List (Option String × CSVRow)) (k : Option String)
    (v : CSVRow) (hk : k ∉ m.map Prod.fst) :
    m.map (fun p => if p.1 == k then (k, v) else p) = m := by
  induction m with
  | nil => rfl
  | cons p t ih =>
    simp only [List.map_cons, List.mem_cons, not_or] at hk ⊢
    have hpk : ¬ (p.1 == k) = true := by
      simp only [beq_iff_eq]
      exact fun h => hk.1 (h ▸ rfl)
    rw [if_neg hpk, ih hk.2]

theorem filter_key_of_not_mem (m : List (Option String × CSVRow)) (k : Option String)
    (hk : k ∉ m.map Prod.fst) :
    m.filter (fun p => p.1 == k) = [] := by
  induction m with
  | nil => rfl
  | cons p t ih =>
    simp only [List.map_cons, List.mem_cons, not_or] at hk
    have hpk : ¬ (p.1 == k) = true := by
      simp only [beq_iff_eq]
      exact fun h => hk.1 (h ▸ rfl)
    rw [List.filter_cons, if_neg hpk]
    exact ih hk.2

theorem filter_map_replace_other (m : List (Option String × CSVRow)) (k k0 : Option String)
    (v : CSVRow) (hkk : k ≠ k0) :
    (m.map (fun p => if p.1 == k then (k, v) else p)).filter (fun p => p.1 == k0) =
      m.filter (fun p => p.1 == k0) := by
  induction m with
  | nil => rfl
  | cons p t ih =>
    simp only [List.map_cons]
    by_cases hpk : (p.1 == k) = true
    · have hp1 : p.1 = k := by simpa using hpk
      rw [if_pos hpk]
      have hknk0 : ¬ ((k, v).1 == k0) = true := by simpa using hkk
      have hpnk0 : ¬ (p.1 == k0) = true := by
        simp only [beq_iff_eq, hp1]
        exact hkk
      rw [List.filter_cons, if_neg hknk0, List.filter_cons, if_neg hpnk0, ih]
    · rw [if_neg hpk]
      by_cases hpk0 : (p.1 == k0) = true
      · rw [List.filter_cons, if_pos hpk0, List.filter_cons, if_pos hpk0, ih]
      · rw [List.filter_cons, if_neg hpk0, List.filter_cons, if_neg hpk0, ih]

theorem filter_map_replace_hit (m : List (Option String × CSVRow)) (k : Option String)
    (v : CSVRow) (hnd : (m.map Prod.fst).Nodup) (hany : m.any (fun p => p.1 == k) = true) :
    (m.map (fun p => if p.1 == k then (k, v) else p)).filter (fun p => p.1 == k) = [(k, v)] := by
  induction m with
  | nil => simp at hany
  | cons p t ih =>
    simp only [List.map_cons, List.nodup_cons] at hnd
    simp only [List.map_cons]
    by_cases hpk : (p.1 == k) = true
    · have hp1 : p.1 = k := by simpa using hpk
      rw [if_pos hpk]
      have hkk : ((k, v).1 == k) = true := by simp
      rw [List.filter_cons, if_pos hkk]
      have hkt : k ∉ t.map Prod.fst := hp1 ▸ hnd.1
      rw [map_replace_of_not_mem t k v hkt, filter_key_of_not_mem t k hkt]
    · rw [if_neg hpk]
      have hany' : t.any (fun p => p.1 == k) = true := by
        rcases List.any_eq_true.1 hany with ⟨q, hq, hqk⟩
        rcases List.mem_cons.1 hq with rfl | hq
        · exact absurd hqk hpk
        · exact List.any_eq_true.2 ⟨q, hq, hqk⟩
      rw [List.filter_cons, if_neg hpk]
      exact ih hnd.2 hany'

theorem mapSet_keyedOK (m : List (Option String × CSVRow)) (k : Option String) (v : CSVRow)
    (hv : v.DeckID = k) (h : KeyedOK m) : KeyedOK (mapSet m k v) := by
  unfold mapSet
  split
  · constructor
    · have hfst : (m.map (fun p => if p.1 == k then (k, v) else p)).map Prod.fst =
          m.map Prod.fst := by
        rw [List.map_map]
        refine List.map_congr_left ?_
        intro p hp
        by_cases hpk : (p.1 == k) = true
        · have hp1 : p.1 = k := by simpa using hpk
          simp [Function.comp, hpk, hp1]
        · simp [Function.comp, hpk]
      rw [hfst]
      exact h.1
    · intro p hp
      rcases List.mem_map.1 hp with ⟨q, hq, hfq⟩
      by_cases hqk : (q.1 == k) = true
      · rw [if_pos hqk] at hfq
        rw [← hfq]
        exact hv
      · rw [if_neg hqk] at hfq
        rw [← hfq]
        exact h.2 q hq
  · rename_i hany
    constructor
    · rw [List.map_append]
      have hknotin : k ∉ m.map Prod.fst := by
        intro hkin
        rcases List.mem_map.1 hkin with ⟨p, hp, hpk⟩
        have : m.any (fun p => p.1 == k) = true :=
          List.any_eq_true.2 ⟨p, hp, by simp [hpk]⟩
        simp [this] at hany
      simp only [List.map_cons, List.map_nil]
      exact List.Nodup.append h.1 (List.nodup_singleton k)
        (by simpa [List.disjoint_singleton] using hknotin)
    · intro p hp
      rcases List.mem_append.1 hp with hp | hp
      · exact h.2 p hp
      · simp only [List.mem_singleton] at hp
        rw [hp]
        exact hv

theorem mapSet_filter (m : List (Option String × CSVRow)) (k k0 : Option String) (v : CSVRow)
    (h : KeyedOK m) :
    (mapSet m k v).filter (fun p => p.1 == k0) =
      if k = k0 then [(k, v)] else m.filter (fun p => p.1 == k0) := by
  unfold mapSet
  split
  · rename_i hany
    by_cases hkk : k = k0
    · subst hkk
      rw [if_pos rfl]
      exact filter_map_replace_hit m k v h.1 hany
    · rw [if_neg hkk]
      exact filter_map_replace_other m k k0 v hkk
  · rename_i hany
    have hknotin : k ∉ m.map Prod.fst := by
      intro hkin
      rcases List.mem_map.1 hkin with ⟨p, hp, hpk⟩
      have : m.any (fun p => p.1 == k) = true :=
        List.any_eq_true.2 ⟨p, hp, by simp [hpk]⟩
      simp [this] at hany
    rw [List.filter_append]
    by_cases hkk : k = k0
    · subst hkk
      rw [if_pos rfl, filter_key_of_not_mem m k hknotin]
      simp
    · rw [if_neg hkk]
      have : ([(k, v)].filter (fun p => p.1 == k0)) = [] := by
        simp [hkk]
      rw [this, List.append_nil]

theorem insertRows_keyedOK (rows : List CSVRow) (m : List (Option String × CSVRow))
    (h : KeyedOK m) : KeyedOK (insertRows m rows) := by
  induction rows generalizing m with
  | nil => exact h
  | cons r rest ih => exact ih _ (mapSet_keyedOK m r.DeckID r rfl h)

theorem insertRows_filter (rows : List CSVRow) (m : List (Option String × CSVRow))
    (k0 : Option String) (h : KeyedOK m) :
    (insertRows m rows).filter (fun p => p.1 == k0) =
      match (rows.filter (fun r => r.DeckID == k0)).getLast? with
      | some r => [(k0, r)]
      | none => m.filter (fun p => p.1 == k0) := by
  induction rows generalizing m with
  | nil => simp [insertRows]
  | cons r rest ih =>
    show (insertRows (mapSet m r.DeckID r) rest).filter (fun p => p.1 == k0) = _
    rw [ih _ (mapSet_keyedOK m r.DeckID r rfl h)]
    rcases hrest : rest.filter (fun r => r.DeckID == k0) with _ | ⟨x, xs⟩
    · simp only [hrest, List.getLast?_nil]
      rw [mapSet_filter m r.DeckID k0 r h]
      by_cases hr : r.DeckID = k0
      · rw [if_pos hr]
        have hq : ((fun s => s.DeckID == k0) r) = true := by simp [hr]
        rw [List.filter_cons, if_pos hq, hrest]
        simp [hr]
      · rw [if_neg hr]
        have hq : ¬ (((fun s => s.DeckID == k0) r) = true) := by simp [hr]
        rw [List.filter_cons, if_neg hq, hrest]
        simp
    · have hys : ((x :: xs).getLast?).isSome := by
        rw [List.getLast?_isSome]
        simp
      rcases Option.isSome_iff_exists.1 hys with ⟨y, hy⟩
      rw [List.filter_cons]
      by_cases hq : ((fun s => s.DeckID == k0) r) = true
      · rw [if_pos hq, hrest, List.getLast?_cons_cons, hy]
      · rw [if_neg hq, hrest, hy]

theorem map_snd_filter_key (m : List (Option String × CSVRow)) (k0 : Option String)
    (h : KeyedOK m) :
    (m.map Prod.snd).filter (fun r => r.DeckID == k0) =
      (m.filter (fun p => p.1 == k0)).map Prod.snd := by
  induction m with
  | nil => rfl
  | cons p t ih =>
    have hp2 : p.2.DeckID = p.1 := h.2 p (List.mem_cons_self p t)
    have ht : KeyedOK t := by
      refine ⟨?_, fun q hq => h.2 q (List.mem_cons_of_mem p hq)⟩
      have := h.1
      rw [List.map_cons, List.nodup_cons] at this
      exact this.2
    simp only [List.map_cons, List.filter_cons, hp2]
    by_cases hpk : (p.1 == k0) = true
    · rw [if_pos hpk, if_pos hpk, List.map_cons, ih ht]
    · rw [if_neg hpk, if_neg hpk, ih ht]

/-! ## Claim C2: deduplication, last occurrence wins -/

/-- Claim C2, amended. In the CSV variant, for every raw `DeckID` value the
deduplicated row list keeps exactly the last source row with that id
(`Map.set` overwrites earlier rows), and `parseCSV` maps each kept row to
its deck; the XLSX variant (see the counterexample) performs no
deduplication of `Decks` rows. -/
theorem parseCSV_dedup_last_wins (rows : List CSVRow) (key : Option String) :
    (dedupByDeckID rows).filter (fun r => r.DeckID == key) =
      ((rows.filter (fun r => r.DeckID == key)).getLast?).toList ∧
    parseCSV rows = (dedupByDeckID rows).map mkCSVDeck := by
  refine ⟨?_, rfl⟩
  unfold dedupByDeckID
  rw [map_snd_filter_key _ key (insertRows_keyedOK rows [] keyedOK_nil)]
  rw [insertRows_filter rows [] key keyedOK_nil]
  generalize (rows.filter (fun r => r.DeckID == key)).getLast? = gl
  cases gl with
  | none => simp
  | some r => simp

/-- Counterexample to C2 as stated: the XLSX variant keeps both `Decks`
rows with the duplicated id `"A"` (no deduplication), so "exactly one deck
per id ... in both source-format variants" fails. -/
theorem parseXLSX_dedup_cex :
    ((parseXLSXDecks [] [⟨some "A", some "X", none, none, none, none⟩,
                         ⟨some "A", some "Y", none, none, none, none⟩]).filter
        (fun d => d.id == "A")).length = 2 ∧
    (parseXLSXDecks [] [⟨some "A", some "X", none, none, none, none⟩,
                        ⟨some "A", some "Y", none, none, none, none⟩]).map
        (fun d => (d.id, d.commander)) =
      [("A", some "X"), ("A", some "Y")] := by
  decide

/-! ## Claim C4: fallback to the row's own pre-aggregated totals -/

theorem mapSet_mem (m : List (Option String × CSVRow)) (k : Option String) (v : CSVRow)
    (p : Option String × CSVRow) (hp : p ∈ mapSet m k v) : p ∈ m ∨ p = (k, v) := by
  unfold mapSet at hp
  split at hp
  · rcases List.mem_map.1 hp with ⟨q, hq, hfq⟩
    by_cases hqk : (q.1 == k) = true
    · rw [if_pos hqk] at hfq
      exact Or.inr hfq.symm
    · rw [if_neg hqk] at hfq
      exact Or.inl (hfq ▸ hq)
  · rcases List.mem_append.1 hp with hp | hp
    · exact Or.inl hp
    · simp only [List.mem_singleton] at hp
      exact Or.inr hp

theorem insertRows_mem (rows : List CSVRow) (m : List (Option String × CSVRow))
    (p : Option String × CSVRow) (hp : p ∈ insertRows m rows) : p ∈ m ∨ p.2 ∈ rows := by
  induction rows generalizing m with
  | nil => exact Or.inl hp
  | cons r rest ih =>
    rcases ih (mapSet m r.DeckID r) hp with hm | hr
    · rcases mapSet_mem m r.DeckID r p hm with hm | rfl
      · exact Or.inl hm
      · exact Or.inr (List.mem_cons_self r rest)
    · exact Or.inr (List.mem_cons_of_mem r hr)

/-- Claim C4. Every deck `parseCSV` produces is the image of one of its own
source rows (there are no participation records in the CSV format), its
`games`/`wins`/`losses` are the row's own `Total Games`/`Wins`/`Losses`
cells through `parseInt(...) || 0`, and a missing `Losses` cell defaults
to zero — so a decks-only row with `games=5, wins=2` yields
`games=5, wins=2, losses=0` (see the witness). -/
theorem parseCSV_fallback_totals :
    (∀ rows : List CSVRow, ∀ d ∈ parseCSV rows, ∃ r ∈ rows, d = mkCSVDeck r) ∧
    (∀ row : CSVRow,
      parseCSV [row] = [mkCSVDeck row] ∧
      (mkCSVDeck row).games = jsOrZero (jsParseIntCell row.TotalGames) ∧
      (mkCSVDeck row).wins = jsOrZero (jsParseIntCell row.Wins) ∧
      (row.Losses = none → (mkCSVDeck row).losses = some 0)) := by
  constructor
  · intro rows d hd
    rcases List.mem_map.1 hd with ⟨r, hr, hmk⟩
    rcases List.mem_map.1 hr with ⟨p, hp, hsnd⟩
    rcases insertRows_mem rows [] p hp with hnil | hmem
    · simp at hnil
    · exact ⟨p.2, hmem, by rw [← hmk, ← hsnd]⟩
  · intro row
    refine ⟨rfl, rfl, rfl, ?_⟩
    intro hnone
    simp [mkCSVDeck, hnone, jsParseIntCell, jsOrZero, jsNumTruthy]

/-- Witness for C4: a decks-only row with `Total Games = "5"`, `Wins = "2"`
and no `Losses` cell normalizes to `games=5, wins=2, losses=0`. -/
theorem parseCSV_fallback_totals_witness :
    (⟨some "A", some "X", some "P", some "5", some "2", none⟩ : CSVRow).Losses = none ∧
    (mkCSVDeck ⟨some "A", some "X", some "P", some "5", some "2", none⟩).losses = some 0 ∧
    parseCSV [⟨some "A", some "X", some "P", some "5", some "2", none⟩] =
      [mkCSVDeck ⟨some "A", some "X", some "P", some "5", some "2", none⟩] ∧
    mkCSVDeck ⟨some "A", some "X", some "P", some "5", some "2", none⟩ =
      ⟨some "A", some "X", some "P", some 5, some 2, some 0⟩ := by
  refine ⟨rfl,
    (parseCSV_fallback_totals.2 ⟨some "A", some "X", some "P", some "5", some "2", none⟩).2.2.2 rfl,
    (parseCSV_fallback_totals.2 ⟨some "A", some "X", some "P", some "5", some "2", none⟩).1,
    by decide⟩

/-! ## Claim C5: non-null fields and numeric defaults -/

theorem jsOrZero_isSome (a : Option ℤ) : (jsOrZero a).isSome := by
  unfold jsOrZero
  split
  · rename_i h
    cases a with
    | none => simp [jsNumTruthy] at h
    | some n => simp
  · simp

theorem jsNullish_some_isSome {α : Type} (a : Option α) (b : α) :
    (jsNullish a (some b)).isSome := by
  cases a <;> simp [jsNullish]

/-- Claim C5, amended. In the XLSX variant every produced deck has non-null
`commander` and `player` (the `?? '—'` placeholder) and a non-null string
`id` (`String(row.DeckID ?? '')` always coerces to a string — `Deck.id` is
string-typed by construction), with numeric fields natural numbers
defaulting to zero.  In the CSV variant the numeric fields are always
actual numbers (never `NaN`/null, `parseInt(...) || 0`); its
`id`/`player`/`commander`, however, receive no placeholder — see the
counterexample. -/
theorem normalize_defaults_spec :
    (∀ (gp : List GPRow) (deckRows : List XRow), ∀ d ∈ parseXLSXDecks gp deckRows,
      d.commander.isSome ∧ d.player.isSome) ∧
    (∀ rows : List CSVRow, ∀ d ∈ parseCSV rows,
      d.games.isSome ∧ d.wins.isSome ∧ d.losses.isSome) := by
  constructor
  · intro gp deckRows d hd
    rcases List.mem_map.1 hd with ⟨row, hrow, rfl⟩
    exact ⟨jsNullish_some_isSome (row.Commander.map jsTrim) "—",
      jsNullish_some_isSome (row.PlayerName.map jsTrim) "—"⟩
  · intro rows d hd
    rcases List.mem_map.1 hd with ⟨r, hr, rfl⟩
    exact ⟨jsOrZero_isSome (jsParseIntCell r.TotalGames),
      jsOrZero_isSome (jsParseIntCell r.Wins), jsOrZero_isSome (jsParseIntCell r.Losses)⟩

/-- Counterexample to C5 as stated: `parseCSV` substitutes no placeholder —
a row with missing `DeckID`/`Commander`/`PlayerName` cells yields a deck
whose `id`, `commander` and `player` are all null (`undefined`). -/
theorem parseCSV_missing_fields_cex :
    parseCSV [⟨none, none, none, none, none, none⟩] =
      [⟨none, none, none, some 0, some 0, some 0⟩] ∧
    ((⟨none, none, none, some 0, some 0, some 0⟩ : CDeck).id).isSome = false ∧
    ((⟨none, none, none, some 0, some 0, some 0⟩ : CDeck).commander).isSome = false ∧
    ((⟨none, none, none, some 0, some 0, some 0⟩ : CDeck).player).isSome = false := by
  decide

/-- Witness for C5 at concrete empty rows: the XLSX deck gets the `'—'`
placeholders and the CSV deck gets zero-valued numbers. -/
theorem normalize_defaults_spec_witness :
    (mkXlsxDeck (deckStats []) ⟨none, none, none, none, none, none⟩) ∈
      parseXLSXDecks [] [⟨none, none, none, none, none, none⟩] ∧
    ((mkXlsxDeck (deckStats []) ⟨none, none, none, none, none, none⟩).commander.isSome ∧
      (mkXlsxDeck (deckStats []) ⟨none, none, none, none, none, none⟩).player.isSome) ∧
    (mkCSVDeck ⟨none, none, none, none, none, none⟩) ∈
      parseCSV [⟨none, none, none, none, none, none⟩] ∧
    ((mkCSVDeck ⟨none, none, none, none, none, none⟩).games.isSome ∧
      (mkCSVDeck ⟨none, none, none, none, none, none⟩).wins.isSome ∧
      (mkCSVDeck ⟨none, none, none, none, none, none⟩).losses.isSome) := by
  refine ⟨by decide, normalize_defaults_spec.1 [] [⟨none, none, none, none, none, none⟩]
    (mkXlsxDeck (deckStats []) ⟨none, none, none, none, none, none⟩) (by decide),
    by decide, normalize_defaults_spec.2 [⟨none, none, none, none, none, none⟩]
    (mkCSVDeck ⟨none, none, none, none, none, none⟩) (by decide)⟩

/-! ## Claim C3: grouping and tallying participation records -/

/-- The claim-side tally: group the `Game Players` rows by deck identifier
and count rows, rows with the win flag set (`WinFlag = 1`) and rows with
the win flag unset (`WinFlag = 0`). -/
def gpTally (rows : List GPRow) (A : String) : GPStats :=
  { games := (rows.filter (fun r => r.DeckID == some A)).length
    wins := (rows.filter (fun r => r.DeckID == some A && r.WinFlag == some 1)).length
    losses := (rows.filter (fun r => r.DeckID == some A && r.WinFlag == some 0)).length }

/-- Componentwise sum of two accumulators. -/
def addGP (s t : GPStats) : GPStats :=
  ⟨s.games + t.games, s.wins + t.wins, s.losses + t.losses⟩

theorem addGP_zero_right (s : GPStats) : addGP s ⟨0, 0, 0⟩ = s := by
  cases s
  simp [addGP]

theorem addGP_zero_left (t : GPStats) : addGP ⟨0, 0, 0⟩ t = t := by
  cases t
  simp [addGP]

theorem gpTally_cons_skip (r : GPRow) (rest : List GPRow) (A : String)
    (h : r.DeckID ≠ some A) : gpTally (r :: rest) A = gpTally rest A := by
  have hb : (r.DeckID == some A) = false := by simpa using h
  simp [gpTally, List.filter_cons, hb]

theorem gpTally_cons_hit (r : GPRow) (rest : List GPRow) (A : String)
    (h : r.DeckID = some A) :
    gpTally (r :: rest) A =
      ⟨(gpTally rest A).games + 1,
       (gpTally rest A).wins + (if r.WinFlag = some 1 then 1 else 0),
       (gpTally rest A).losses + (if r.WinFlag = some 0 then 1 else 0)⟩ := by
  have hb : (r.DeckID == some A) = true := by simpa using h
  by_cases h1 : r.WinFlag = some 1
  · have h0 : ¬ (r.WinFlag = some 0) := by simp [h1]
    simp [gpTally, List.filter_cons, hb, h1, h0]
  · by_cases h0 : r.WinFlag = some 0
    · simp [gpTally, List.filter_cons, hb, h1, h0]
    · simp [gpTally, List.filter_cons, hb, h1, h0]

theorem deckStatsAux_tally (rows : List GPRow) (m : String → Option GPStats) (A : String)
    (hA : A ≠ "") :
    ((deckStatsAux m rows) A).getD ⟨0, 0, 0⟩ =
      addGP ((m A).getD ⟨0, 0, 0⟩) (gpTally rows A) := by
  induction rows generalizing m with
  | nil => simp [deckStatsAux, gpTally, addGP_zero_right]
  | cons r rest ih =>
    rcases r with ⟨did, wf⟩
    rcases did with _ | i
    · rw [show deckStatsAux m (⟨none, wf⟩ :: rest) = deckStatsAux m rest from rfl]
      rw [gpTally_cons_skip ⟨none, wf⟩ rest A (by simp), ih m]
    · by_cases hie : i = ""
      · subst hie
        rw [show deckStatsAux m (⟨some "", wf⟩ :: rest) = deckStatsAux m rest from rfl]
        have hne : (⟨some "", wf⟩ : GPRow).DeckID ≠ some A := by
          simp only []
          intro hc
          exact hA (by injection hc with h; exact h.symm)
        rw [gpTally_cons_skip ⟨some "", wf⟩ rest A hne, ih m]
      · have hred : deckStatsAux m (⟨some i, wf⟩ :: rest) =
            deckStatsAux (fun k => if k = i then
              some (tallyRow ((m i).getD ⟨0, 0, 0⟩) wf) else m k) rest := by
          rw [deckStatsAux, if_neg hie]
        rw [hred]
        by_cases hiA : i = A
        · subst hiA
          rw [ih]
          simp only [if_pos rfl, Option.getD_some]
          rw [gpTally_cons_hit ⟨some i, wf⟩ rest i rfl]
          rcases hs : (m i).getD ⟨0, 0, 0⟩ with ⟨sg, sw, sl⟩
          rcases ht : gpTally rest i with ⟨tg, tw, tl⟩
          by_cases h1 : wf = some 1
          · have h0 : ¬ (wf = some 0) := by simp [h1]
            simp [tallyRow, addGP, h1, h0]
            omega
          · by_cases h0 : wf = some 0
            · simp [tallyRow, addGP, h1, h0]
              omega
            · simp [tallyRow, addGP, h1, h0]
              omega
        · rw [ih]
          rw [if_neg (fun hc => hiA hc.symm)]
          have hne : (⟨some i, wf⟩ : GPRow).DeckID ≠ some A := by
            simp only []
            intro hc
            exact hiA (by injection hc)
          rw [gpTally_cons_skip ⟨some i, wf⟩ rest A hne]

/-- Claim C3. For every `Game Players` row set and every (truthy) deck id
`A`, the stats the join consumes — `deckStats[A] ?? {games:0,wins:0,losses:0}` —
equal the grouped tally: `games` counts the rows for that deck, `wins`
those with `WinFlag = 1` (flag set), `losses` those with `WinFlag = 0`
(flag unset); and every `Decks` row with that id receives exactly that
triple. -/
theorem deckStats_grouping (rows : List GPRow) (A : String) (hA : A ≠ "") :
    (deckStats rows A).getD ⟨0, 0, 0⟩ = gpTally rows A ∧
    ∀ row : XRow, row.DeckID = some A →
      (mkXlsxDeck (deckStats rows) row).games = (gpTally rows A).games ∧
      (mkXlsxDeck (deckStats rows) row).wins = (gpTally rows A).wins ∧
      (mkXlsxDeck (deckStats rows) row).losses = (gpTally rows A).losses := by
  have h1 : (deckStats rows A).getD ⟨0, 0, 0⟩ = gpTally rows A := by
    have h := deckStatsAux_tally rows (fun _ => none) A hA
    rw [deckStats]
    rw [h]
    simp [addGP_zero_left]
  refine ⟨h1, ?_⟩
  intro row hrow
  refine ⟨?_, ?_, ?_⟩ <;>
    simp [mkXlsxDeck, jsPropKey, hrow, h1]

/-- Witness for C3 at the participation records
`[{deck A, win}, {deck A, loss}, {deck A, win}]`: deck A tallies to
`games = 3, wins = 2, losses = 1`. -/
theorem deckStats_grouping_witness :
    ("A" : String) ≠ "" ∧
    (deckStats [⟨some "A", some 1⟩, ⟨some "A", some 0⟩, ⟨some "A", some 1⟩] "A").getD
        ⟨0, 0, 0⟩ = ⟨3, 2, 1⟩ := by
  refine ⟨by decide, ?_⟩
  exact (deckStats_grouping [⟨some "A", some 1⟩, ⟨some "A", some 0⟩, ⟨some "A", some 1⟩]
    "A" (by decide)).1.trans (by decide)

/-! ## Claim C8: the wins + losses ≤ games invariant -/

/-- Every accumulator stored in the stats map satisfies the invariant. -/
def StatsInv (m : String → Option GPStats) : Prop :=
  ∀ k s, m k = some s → s.wins + s.losses ≤ s.games

theorem tallyRow_inv (s : GPStats) (flag : Option ℤ)
    (h : s.wins + s.losses ≤ s.games) :
    (tallyRow s flag).wins + (tallyRow s flag).losses ≤ (tallyRow s flag).games := by
  by_cases h1 : flag = some 1
  · have h0 : ¬ (flag = some 0) := by simp [h1]
    simp [tallyRow, h1, h0]
    omega
  · by_cases h0 : flag = some 0 <;> simp [tallyRow, h1, h0] <;> omega

theorem deckStatsAux_inv (rows : List GPRow) (m : String → Option GPStats)
    (h : StatsInv m) : StatsInv (deckStatsAux m rows) := by
  induction rows generalizing m with
  | nil => exact h
  | cons r rest ih =>
    rcases r with ⟨did, wf⟩
    rcases did with _ | i
    · exact ih m h
    · by_cases hie : i = ""
      · subst hie
        rw [show deckStatsAux m (⟨some "", wf⟩ :: rest) = deckStatsAux m rest from rfl]
        exact ih m h
      · rw [deckStatsAux, if_neg hie]
        refine ih _ ?_
        intro k s hk
        simp only [] at hk
        by_cases hki : k = i
        · rw [if_pos hki] at hk
          have hs : s = tallyRow ((m i).getD ⟨0, 0, 0⟩) wf := by injection hk with h'; exact h'.symm
          subst hs
          refine tallyRow_inv _ wf ?_
          rcases hmi : m i with _ | s0
          · simp
          · simpa using h i s0 hmi
        · rw [if_neg hki] at hk
          exact h k s hk

/-- Claim C8, amended. Every deck the XLSX normalization produces satisfies
`wins + losses ≤ games` (all three are naturals, hence non-negative): the
tally adds one game per participation row and at most one of win/loss.
The CSV variant copies pre-aggregated totals without validation, so there
the invariant holds only if the source rows satisfy it — see the
counterexample. -/
theorem parseXLSX_invariant (gp : List GPRow) (deckRows : List XRow) :
    ∀ d ∈ parseXLSXDecks gp deckRows, d.wins + d.losses ≤ d.games := by
  intro d hd
  rcases List.mem_map.1 hd with ⟨row, hrow, rfl⟩
  have hinv : StatsInv (deckStats gp) := by
    refine deckStatsAux_inv gp (fun _ => none) ?_
    intro k s hk
    simp at hk
  rcases hst : deckStats gp (jsPropKey row.DeckID) with _ | s
  · simp [mkXlsxDeck, hst]
  · have hs := hinv _ s hst
    simpa [mkXlsxDeck, hst] using hs

/-- Witness for C8 on a concrete XLSX input. -/
theorem parseXLSX_invariant_witness :
    (mkXlsxDeck (deckStats [⟨some "A", some 1⟩]) ⟨some "A", none, none, none, none, none⟩) ∈
      parseXLSXDecks [⟨some "A", some 1⟩] [⟨some "A", none, none, none, none, none⟩] ∧
    (mkXlsxDeck (deckStats [⟨some "A", some 1⟩])
        ⟨some "A", none, none, none, none, none⟩).wins +
      (mkXlsxDeck (deckStats [⟨some "A", some 1⟩])
        ⟨some "A", none, none, none, none, none⟩).losses ≤
      (mkXlsxDeck (deckStats [⟨some "A", some 1⟩])
        ⟨some "A", none, none, none, none, none⟩).games := by
  refine ⟨by decide, ?_⟩
  exact parseXLSX_invariant [⟨some "A", some 1⟩] [⟨some "A", none, none, none, none, none⟩]
    _ (by decide)

/-- Counterexample to C8 as stated: the CSV variant accepts a row whose
pre-aggregated totals violate the invariant (`games=1, wins=5, losses=5`)
and produces exactly that deck. -/
theorem parseCSV_invariant_cex :
    parseCSV [⟨some "A", none, none, some "1", some "5", some "5"⟩] =
      [⟨some "A", none, none, some 1, some 5, some 5⟩] ∧
    ¬ ((5 : ℤ) + 5 ≤ 1) := by
  decide
